import Mathlib

/-!
Verification of the prompt-analysis core of the midjourney-toolbox
repository: a shallow embedding in Lean of `analyzePrompt`,
`updateParameter`, `handleAddParameter`, `handleTranslate` and the
sentence aligner from `src/App.tsx`, together with theorems about them.

JavaScript regular-expression behaviour (global scanning, greedy and
lazy quantifiers, backtracking, word boundaries, the non-multiline `$`
anchor, `String.prototype.split` with a regex separator) is embedded by
hand-written character-list scanners that reproduce the semantics of the
concrete regexes appearing in the source.
-/

namespace MJ

/-- The character set of the JavaScript `\s` class (also used by
`String.prototype.trim`). -/
def jsIsWs (c : Char) : Bool :=
  c == ' ' || c == '\t' || c == '\n' || c == '\r' ||
  c.toNat == 11 || c.toNat == 12 ||
  c.toNat == 0xa0 || c.toNat == 0x1680 ||
  (decide (0x2000 ≤ c.toNat) && decide (c.toNat ≤ 0x200a)) ||
  c.toNat == 0x2028 || c.toNat == 0x2029 || c.toNat == 0x202f ||
  c.toNat == 0x205f || c.toNat == 0x3000 || c.toNat == 0xfeff

/-- JavaScript line terminators (the characters `.` does not match). -/
def isLineTerminator (c : Char) : Bool :=
  c == '\n' || c == '\r' || c.toNat == 0x2028 || c.toNat == 0x2029

/-- `String.prototype.trim` on a character list. -/
def jsTrimList (cs : List Char) : List Char :=
  ((cs.dropWhile jsIsWs).reverse.dropWhile jsIsWs).reverse

/-- `String.prototype.trim`. -/
def jsTrimStr (s : String) : String :=
  String.mk (jsTrimList s.toList)

/-- Whether `pat` occurs as a contiguous subsequence of the list. -/
def containsSeq (pat : List Char) : List Char → Bool
  | [] => pat.isEmpty
  | c :: rest => List.isPrefixOf pat (c :: rest) || containsSeq pat rest

/-- `String.prototype.includes`. -/
def jsIncludes (s pattern : String) : Bool :=
  containsSeq pattern.toList s.toList

/-- `Array.from(new Set(xs))`: deduplication keeping first occurrences. -/
def dedupFirstAux (seen : List String) : List String → List String
  | [] => []
  | x :: xs => if x ∈ seen then dedupFirstAux seen xs else x :: dedupFirstAux (x :: seen) xs

/-- `Array.from(new Set(xs))` for a string array. -/
def dedupFirst (l : List String) : List String :=
  dedupFirstAux [] l

/-! ## The parameter catalog (`PARAMETER_INFO`) -/

/-- The `type` field of a catalog entry. -/
inductive ParamType
  | number
  | text
  | select
deriving DecidableEq, Repr

/-- The `ParameterInfo` interface of `App.tsx`. -/
structure ParameterInfo where
  name : String
  description : String
  values : Option (List String) := none
  default : Option String := none
  type : Option ParamType := none
  min : Option Nat := none
  max : Option Nat := none
  examples : Option String := none
deriving DecidableEq, Repr

def arInfo : ParameterInfo :=
  { name := "Aspect Ratio (宽高比)"
    description := "设置图像的宽高比。数值格式为 width:height，例如 16:9 生成宽屏图像。常用于控制构图和适配不同设备显示需求。"
    type := some ParamType.text
    values := some ["1:1", "16:9", "9:16", "4:3", "3:4", "2:1", "1:2"]
    examples := some "16:9 生成宽屏图像，1:1 生成正方形图像" }

def chaosInfo : ParameterInfo :=
  { name := "Chaos (混沌度)"
    description := "控制图像的随机变化程度。值越高，生成的图像变化越大，越不可预测。范围 0-100。"
    type := some ParamType.number
    min := some 0
    max := some 100
    examples := some "较高的值会产生更有创意和意想不到的结果" }

def qualityInfo : ParameterInfo :=
  { name := "Quality (质量)"
    description := "控制生成图像的质量和细节程度。.25 为低质量(较快)，.5 为中等质量，1 为最高质量(较慢)。"
    type := some ParamType.select
    values := some [".25", ".5", "1"]
    default := some "1"
    examples := some "1 适合最终作品，.25 适合快速测试" }

def seedInfo : ParameterInfo :=
  { name := "Seed (种子)"
    description := "设置随机种子值。使用相同的种子值可以生成相似的图像，便于进行细微调整。"
    type := some ParamType.number
    examples := some "可用于在修改其他参数时保持图像的基本特征" }

def stopInfo : ParameterInfo :=
  { name := "Stop (停止)"
    description := "在指定完成百分比时停止生成。范围 10-100，可用于在图像完成前查看进度。"
    type := some ParamType.number
    min := some 10
    max := some 100
    examples := some "较低的值可以更快看到大致效果" }

def styleInfo : ParameterInfo :=
  { name := "Style (风格)"
    description := "控制图像的整体风格。raw 表示更写实的风格，减少 AI 的艺术加工，更忠实于描述。"
    type := some ParamType.text
    values := some ["raw"]
    examples := some "raw 适合需要精确还原的场景" }

def stylizeInfo : ParameterInfo :=
  { name := "Stylize (风格化)"
    description := "控制 AI 的艺术风格化强度。范围 0-1000，默认 100。值越高越具有 AI 特色，值越低越接近写实。"
    type := some ParamType.number
    min := some 0
    max := some 1000
    default := some "100"
    examples := some "较低的值(如 20)适合照片级写实效果" }

def tileInfo : ParameterInfo :=
  { name := "Tile (平铺)"
    description := "生成可无缝平铺的图像，适合制作背景和纹理。"
    type := some ParamType.text
    examples := some "适合生成墙纸、织物图案等可重复的图像" }

def versionInfo : ParameterInfo :=
  { name := "Version (版本)"
    description := "选择使用的 Midjourney 模型版本。不同版本具有不同的特点和能力。V5 以上版本支持更多细节控制。"
    type := some ParamType.text
    values := some ["5.0", "5.1", "5.2", "6.0"]
    examples := some "V6.0 是最新版本，具有更好的理解能力" }

def weirdInfo : ParameterInfo :=
  { name := "Weird (怪异度)"
    description := "增加图像的怪异和超现实程度。范围 0-3000，值越高生成的图像越离奇。"
    type := some ParamType.number
    min := some 0
    max := some 3000
    examples := some "高值会产生更有创意和超现实的效果" }

def iwInfo : ParameterInfo :=
  { name := "Image Weight (图像权重)"
    description := "控制参考图片对生成结果的影响程度。范围 0-2：0完全忽略参考图片，1平衡参考和文字描述，2最大程度参考图片。"
    type := some ParamType.number
    min := some 0
    max := some 2
    default := some "1"
    examples := some "2 适合需要严格参考原图风格的场景" }

def vInfo : ParameterInfo :=
  { name := "Version (版本)"
    description := "指定使用的 Midjourney 模型版本。不同版本有不同的特点：V5.0-V5.2 更适合写实风格，V6.0 提供更好的文本理解和创意表现。"
    type := some ParamType.select
    values := some ["5.0", "5.1", "5.2", "6.0"]
    default := some "6.0"
    examples := some "V6.0 适合创意场景，V5.2 适合写实照片" }

def sInfo : ParameterInfo :=
  { name := "Stylize (风格化)"
    description := "控制 AI 的艺术风格化程度。范围 0-1000，值越高图像越有艺术感，值越低越接近写实。100 为默认值。"
    type := some ParamType.number
    min := some 0
    max := some 1000
    default := some "100"
    examples := some "低值(如 20)适合写实照片，高值(如 750)适合艺术创作" }

/-- The `PARAMETER_INFO` record of `App.tsx`, as a lookup function. -/
def PARAMETER_INFO (key : String) : Option ParameterInfo :=
  if key = "ar" then some arInfo
  else if key = "chaos" then some chaosInfo
  else if key = "quality" then some qualityInfo
  else if key = "seed" then some seedInfo
  else if key = "stop" then some stopInfo
  else if key = "style" then some styleInfo
  else if key = "stylize" then some stylizeInfo
  else if key = "tile" then some tileInfo
  else if key = "version" then some versionInfo
  else if key = "weird" then some weirdInfo
  else if key = "iw" then some iwInfo
  else if key = "v" then some vInfo
  else if key = "s" then some sInfo
  else none

/-! ## Analysis data model -/

/-- One extracted `--` flag (`{name, value, enabled}`). -/
structure ExtractedParameter where
  name : String
  value : String
  enabled : Bool
deriving DecidableEq, Repr

/-- The `PromptAnalysis` interface of `App.tsx`. -/
structure PromptAnalysis where
  imageUrls : List String
  descriptions : List String
  parameters : List ExtractedParameter
deriving DecidableEq, Repr

/-- The `TextMapping` interface of `App.tsx`. -/
structure TextMapping where
  original : String
  translated : String
  index : Nat
deriving DecidableEq, Repr

/-! ## Flag extraction: the regex `--([a-zA-Z0-9]+)(?:[:\s]+([^\s]+))?` -/

/-- Character class `[:\s]` (separator between a flag name and its value). -/
def sepChar (c : Char) : Bool :=
  c == ':' || jsIsWs c

/-- Index of the last element of the list satisfying `p`, if any. -/
def lastIdxWhere (p : Char → Bool) : List Char → Option Nat
  | [] => none
  | c :: rest =>
    match lastIdxWhere p rest with
    | some j => some (j + 1)
    | none => if p c then some 0 else none

/-- Matching of the optional group `(?:[:\s]+([^\s]+))?` at the start of
`r1`, with JavaScript backtracking: the greedy separator run `[:\s]+`
shrinks from the right until `[^\s]+` can match.  Returns the captured
value characters and the number of characters the group consumes, or
`none` when the group matches nothing. -/
def paramValuePart (r1 : List Char) : Option (List Char × Nat) :=
  let sep := r1.takeWhile sepChar
  if sep.isEmpty then none
  else
    match r1.drop sep.length with
    | _ :: _ =>
      let r2 := r1.drop sep.length
      let v := r2.takeWhile (fun c => !(jsIsWs c))
      some (v, sep.length + v.length)
    | [] =>
      match lastIdxWhere (fun c => !(jsIsWs c)) sep with
      | some j =>
        if 1 ≤ j then
          let v := (sep.drop j).takeWhile (fun c => !(jsIsWs c))
          some (v, j + v.length)
        else none
      | none => none

/-- Matching of `--([a-zA-Z0-9]+)(?:[:\s]+([^\s]+))?` at the head of the
list: returns `((name, value), consumed)` where `value` is `""` when the
optional group is absent (JavaScript `match[2] || ''`). -/
def matchParamAt : List Char → Option ((String × String) × Nat)
  | c1 :: c2 :: rest =>
    if c1 = '-' ∧ c2 = '-' then
      let nm := rest.takeWhile Char.isAlphanum
      if nm.isEmpty then none
      else
        let r1 := rest.drop nm.length
        match paramValuePart r1 with
        | some (v, k) => some ((String.mk nm, String.mk v), 2 + nm.length + k)
        | none => some ((String.mk nm, ""), 2 + nm.length)
    else none
  | _ => none

/-- Fuelled version of the global flag scan (`text.matchAll(paramRegex)`);
each step consumes at least one character, so fuel equal to the input
length is always sufficient. -/
def paramScanF : Nat → List Char → List (String × String)
  | _, [] => []
  | 0, _ :: _ => []
  | f + 1, c :: rest =>
    match matchParamAt (c :: rest) with
    | some (nv, n) => nv :: paramScanF f (rest.drop (n - 1))
    | none => paramScanF f rest

/-- `text.matchAll(paramRegex)`: the global scan collecting every flag
match in order of appearance. -/
def paramScan (cs : List Char) : List (String × String) :=
  paramScanF cs.length cs

/-! ## Parameter editor (`updateParameter`, `handleAddParameter`) -/

/-- Matching of the dynamically built regex
`--<name>(?:[:\s]+[^\s]+)?\s*` at the head of the list: the number of
characters consumed, or `none`.  The interpolated name is matched
literally, which is exact only for names free of regex metacharacters —
in particular for the alphanumeric names the UI produces (catalog keys
and names extracted by `[a-zA-Z0-9]+`).  For a name containing a
metacharacter the real pattern means something else (see
`updMatchAtDyn` below for the `.` metacharacter). -/
def updMatchAt (nm : List Char) (cs : List Char) : Option Nat :=
  let pre := '-' :: '-' :: nm
  if cs.take pre.length = pre then
    let r1 := cs.drop pre.length
    let g := match paramValuePart r1 with
      | some (_, k) => k
      | none => 0
    let w := ((r1.drop g).takeWhile jsIsWs).length
    some (pre.length + g + w)
  else none

/-- `String.prototype.replace` with the (non-global) update regex:
replaces the first match by `repl`, or returns the string unchanged. -/
def replaceFirstUpd (nm repl : List Char) : List Char → List Char
  | [] => []
  | c :: rest =>
    match updMatchAt nm (c :: rest) with
    | some n => repl ++ rest.drop (n - 1)
    | none => c :: replaceFirstUpd nm repl rest

/-- Whether the update regex `--<name>(?:[:\s]+[^\s]+)?\s*` matches
anywhere in the list. -/
def hasUpdMatch (nm : List Char) : List Char → Bool
  | [] => (updMatchAt nm []).isSome
  | c :: rest => (updMatchAt nm (c :: rest)).isSome || hasUpdMatch nm rest

/-- JavaScript `a || b` on possibly-undefined strings (`""` is falsy). -/
def jsOrStr (a b : Option String) : Option String :=
  match a with
  | some s => if s = "" then b else some s
  | none => b

/-- Rendering of a possibly-undefined string in a template literal. -/
def jsTemplateOpt : Option String → String
  | some s => s
  | none => "undefined"

/-- The fallback branch of the default-value computation shared by
`updateParameter` and `handleAddParameter`:
`info.type === 'number' ? (info.min !== undefined ? String(info.min) : '1') : (info.values ? info.values[0] : '1')`. -/
def codeFallback (info : ParameterInfo) : Option String :=
  if info.type = some ParamType.number then
    some (match info.min with
      | some m => toString m
      | none => "1")
  else
    match info.values with
    | some vs => vs.head?
    | none => some "1"

/-- `updateParameter`'s `defaultValue` computation (with optional
chaining, so an unknown key yields `'1'`). -/
def codeDefaultValue (key : String) : Option String :=
  match PARAMETER_INFO key with
  | none => some "1"
  | some info => jsOrStr info.default (codeFallback info)

/-- `updateParameter`'s `valueToUse`: the trimmed candidate if non-empty,
else the catalog default. -/
def updateEffectiveValue (key newValue : String) : Option String :=
  let t := jsTrimStr newValue
  if t = "" then codeDefaultValue key else some t

/-- The pure string transform of `updateParameter`: replace the first
occurrence of the flag pattern for `key` by `--key value ` and trim the
result (the code stores `newPrompt.trim()`).  Like `updMatchAt`, this
models the dynamically built `RegExp` with the name matched literally,
which is exact for the alphanumeric names the UI produces; a name with
regex metacharacters changes the real pattern's meaning (see
`updateParameterDyn`), and a name that makes the interpolated pattern
invalid (such as a lone `(`) makes the `RegExp` constructor throw,
an error path this total model does not represent. -/
def updateParameter (prompt key newValue : String) : String :=
  jsTrimStr (String.mk (replaceFirstUpd key.toList
    ("--" ++ key ++ " " ++ jsTemplateOpt (updateEffectiveValue key newValue) ++ " ").toList
    prompt.toList))

/-- The pure string transform of `handleAddParameter`: resolve the
catalog default for `key` and append `--key default` to the prompt, then
trim.  `none` models the code throwing on a key absent from the catalog
(`PARAMETER_INFO[key]` is dereferenced without optional chaining). -/
def handleAddParameter (prompt key : String) : Option String :=
  (PARAMETER_INFO key).map (fun info =>
    jsTrimStr (prompt ++ " --" ++ key ++ " " ++
      jsTemplateOpt (jsOrStr info.default (codeFallback info))))

/-! ## Image-URL extraction: the regex
`https?:\/\/(?:[^\s<>"']+?\.(?:jpg|jpeg|gif|png|webp|bmp|svg)|s\.mj\.run\/[^\s<>"']+)(?:\?[^\s<>"']*)?`
with flags `gi` -/

/-- Character class `[^\s<>"']`. -/
def urlChar (c : Char) : Bool :=
  !(jsIsWs c || c == '<' || c == '>' || c == '"' || c == '\'')

/-- Case-insensitive character comparison (ASCII canonicalisation, as in
a non-unicode-mode JavaScript regex). -/
def ciChar (a b : Char) : Bool :=
  a.toLower == b.toLower

/-- Case-insensitive matching of a literal at the head of the input;
returns the consumed characters (as they appear in the input) and the
rest. -/
def matchLitCI : List Char → List Char → Option (List Char × List Char)
  | [], cs => some ([], cs)
  | _ :: _, [] => none
  | l :: ls, c :: cs =>
    if ciChar c l then
      match matchLitCI ls cs with
      | some (t, r) => some (c :: t, r)
      | none => none
    else none

/-- The image extensions of the alternation, in source order. -/
def imageExts : List (List Char) :=
  [['j','p','g'], ['j','p','e','g'], ['g','i','f'], ['p','n','g'],
   ['w','e','b','p'], ['b','m','p'], ['s','v','g']]

/-- First extension of the alternation matching at the head of the
input. -/
def matchExtGo : List (List Char) → List Char → Option (List Char × List Char)
  | [], _ => none
  | e :: es, cs =>
    match matchLitCI e cs with
    | some tr => some tr
    | none => matchExtGo es cs

/-- The lazy loop of `[^\s<>"']+?\.(?:ext)`: `bodyRev` holds the body
consumed so far (reversed, at least one character); at each step the
literal dot followed by an extension is tried first (lazy `+?`), and
only on failure is the body extended. -/
def alt1Cont (bodyRev : List Char) : List Char → Option (List Char × List Char)
  | [] => none
  | c :: r2 =>
    match (if c = '.' then matchExtGo imageExts r2 else none) with
    | some (ext, r3) => some (bodyRev.reverse ++ '.' :: ext, r3)
    | none => if urlChar c then alt1Cont (c :: bodyRev) r2 else none

/-- First alternative `[^\s<>"']+?\.(?:jpg|jpeg|gif|png|webp|bmp|svg)`. -/
def matchAlt1 : List Char → Option (List Char × List Char)
  | [] => none
  | c :: rest => if urlChar c then alt1Cont [c] rest else none

/-- Second alternative `s\.mj\.run\/[^\s<>"']+`. -/
def matchAlt2 (cs : List Char) : Option (List Char × List Char) :=
  match matchLitCI ['s','.','m','j','.','r','u','n','/'] cs with
  | some (lit, r) =>
    let run := r.takeWhile urlChar
    if run.isEmpty then none else some (lit ++ run, r.dropWhile urlChar)
  | none => none

/-- Optional query group `(?:\?[^\s<>"']*)?` (always succeeds). -/
def matchQueryOpt (cs : List Char) : List Char × List Char :=
  match cs with
  | '?' :: r => ('?' :: r.takeWhile urlChar, r.dropWhile urlChar)
  | _ => ([], cs)

/-- The optional `s` of `https?` (greedy, deterministic since the next
required character is `:`). -/
def matchSchemeS : List Char → List Char × List Char
  | [] => ([], [])
  | c :: rr => if ciChar c 's' then ([c], rr) else ([], c :: rr)

/-- The alternation of the two URL bodies, first alternative first. -/
def matchAlternation (r3 : List Char) : Option (List Char × List Char) :=
  match matchAlt1 r3 with
  | some x => some x
  | none => matchAlt2 r3

/-- Matching of the full image-URL regex at the head of the input:
returns the matched characters and the rest. -/
def matchImageAt (cs : List Char) : Option (List Char × List Char) :=
  match matchLitCI ['h','t','t','p'] cs with
  | none => none
  | some (hp, r1) =>
    match matchLitCI [':','/','/'] (matchSchemeS r1).2 with
    | none => none
    | some (cl, r3) =>
      match matchAlternation r3 with
      | none => none
      | some (core, r4) =>
        some (hp ++ (matchSchemeS r1).1 ++ cl ++ core ++ (matchQueryOpt r4).1,
          (matchQueryOpt r4).2)

/-- Fuelled version of the global image-URL scan. -/
def imageMatchScanF : Nat → List Char → List (List Char)
  | _, [] => []
  | 0, _ :: _ => []
  | f + 1, c :: rest =>
    match matchImageAt (c :: rest) with
    | some (m, _) => m :: imageMatchScanF f (rest.drop (m.length - 1))
    | none => imageMatchScanF f rest

/-- `text.match(imageUrlRegex)`: the global scan collecting all matched
substrings in order. -/
def imageMatchScan (cs : List Char) : List (List Char) :=
  imageMatchScanF cs.length cs

/-- Fuelled version of the global image-URL removal. -/
def removeImageUrlsF : Nat → List Char → List Char
  | _, [] => []
  | 0, cs => cs
  | f + 1, c :: rest =>
    match matchImageAt (c :: rest) with
    | some (m, _) => removeImageUrlsF f (rest.drop (m.length - 1))
    | none => c :: removeImageUrlsF f rest

/-- `text.replace(imageUrlRegex, '')`: the global removal of all image
URL matches. -/
def removeImageUrls (cs : List Char) : List Char :=
  removeImageUrlsF cs.length cs

/-! ## The description-isolation pipeline -/

/-- `text.replace` with the regex `--.*$` (no `m` and no `g` flag): `$`
only matches the very end of the string and `.` matches no line
terminator, so the (single, leftmost) match starts at the first `--`
that has no line terminator anywhere after it, and runs to the end. -/
def removeFlagsTail : List Char → List Char
  | [] => []
  | c :: rest =>
    if c = '-' ∧ rest.head? = some '-' ∧ rest.tail.all (fun x => !(isLineTerminator x)) then []
    else c :: removeFlagsTail rest

/-- Auxiliary fact needed by the termination proofs of the scanners
below: `dropWhile` never lengthens a list. -/
theorem length_dropWhile_le (p : Char → Bool) (l : List Char) :
    (List.dropWhile p l).length ≤ l.length := by
  induction l with
  | nil => simp [List.dropWhile]
  | cons a t ih =>
    rw [List.dropWhile_cons]
    split
    · exact Nat.le_trans ih (Nat.le_succ _)
    · exact Nat.le_refl _

/-- Character class `[^()]`. -/
def notParen (c : Char) : Bool :=
  !(c == '(' || c == ')')

/-- Fuelled version of `text.replace(/@[^()]*(?:\([^)]*\))?/g, '')`. -/
def removeMentionsF : Nat → List Char → List Char
  | _, [] => []
  | 0, cs => cs
  | f + 1, c :: rest =>
    if c = '@' then
      match rest.dropWhile notParen with
      | '(' :: r3 =>
        match r3.dropWhile (fun x => !(x == ')')) with
        | ')' :: r5 => removeMentionsF f r5
        | _ => removeMentionsF f (rest.dropWhile notParen)
      | _ => removeMentionsF f (rest.dropWhile notParen)
    else c :: removeMentionsF f rest

/-- `text.replace(/@[^()]*(?:\([^)]*\))?/g, '')`. -/
def removeMentions (cs : List Char) : List Char :=
  removeMentionsF cs.length cs

/-- Fuelled version of `text.replace(/\d+:\d+/g, '')`. -/
def removeRatiosF : Nat → List Char → List Char
  | _, [] => []
  | 0, cs => cs
  | f + 1, c :: rest =>
    if c.isDigit then
      match rest.dropWhile Char.isDigit with
      | ':' :: r2 =>
        if (r2.takeWhile Char.isDigit).isEmpty then c :: removeRatiosF f rest
        else removeRatiosF f (r2.dropWhile Char.isDigit)
      | _ => c :: removeRatiosF f rest
    else c :: removeRatiosF f rest

/-- `text.replace(/\d+:\d+/g, '')`. -/
def removeRatios (cs : List Char) : List Char :=
  removeRatiosF cs.length cs

/-- JavaScript word characters `[A-Za-z0-9_]` (for `\b`). -/
def isWordChar (c : Char) : Bool :=
  c.isAlphanum || c == '_'

/-- `\b` at the end of a match: the next character (if any) is not a
word character. -/
def boundaryAfter (l : List Char) : Bool :=
  match l.head? with
  | none => true
  | some c => !(isWordChar c)

/-- `\b` before a digit: the previous character (if any) is not a word
character. -/
def prevNonWord : Option Char → Bool
  | none => true
  | some p => !(isWordChar p)

/-- Fuelled version of `text.replace(/\b\d+(\.\d+)?\b/g, '')`: `prev` is
the character preceding the current scan position in the original
text. -/
def removeBareNumbersF (prev : Option Char) : Nat → List Char → List Char
  | _, [] => []
  | 0, cs => cs
  | f + 1, c :: rest =>
    if prevNonWord prev && c.isDigit then
      match rest.dropWhile Char.isDigit with
      | '.' :: r2 =>
        if !(r2.takeWhile Char.isDigit).isEmpty &&
            boundaryAfter (r2.dropWhile Char.isDigit) then
          removeBareNumbersF (some ((r2.takeWhile Char.isDigit).getLastD '.')) f
            (r2.dropWhile Char.isDigit)
        else
          removeBareNumbersF (some ((rest.takeWhile Char.isDigit).getLastD c)) f ('.' :: r2)
      | r1 =>
        if boundaryAfter r1 then
          removeBareNumbersF (some ((rest.takeWhile Char.isDigit).getLastD c)) f r1
        else c :: removeBareNumbersF (some c) f rest
    else c :: removeBareNumbersF (some c) f rest

/-- `text.replace(/\b\d+(\.\d+)?\b/g, '')`. -/
def removeBareNumbers (prev : Option Char) (cs : List Char) : List Char :=
  removeBareNumbersF prev cs.length cs

/-- Fuelled version of `text.replace(/\([^)]*\)/g, '')`. -/
def removeParensF : Nat → List Char → List Char
  | _, [] => []
  | 0, cs => cs
  | f + 1, c :: rest =>
    if c = '(' then
      match rest.dropWhile (fun x => !(x == ')')) with
      | ')' :: r2 => removeParensF f r2
      | _ => c :: removeParensF f rest
    else c :: removeParensF f rest

/-- `text.replace(/\([^)]*\)/g, '')`. -/
def removeParens (cs : List Char) : List Char :=
  removeParensF cs.length cs

/-- Removal of trailing whitespace. -/
def rstripWs (cs : List Char) : List Char :=
  (cs.reverse.dropWhile jsIsWs).reverse

/-- `text.replace(/\s*,\s*$/, '').trim()`: the anchored match (if any)
is the maximal suffix of the form `ws* ',' ws*`; afterwards the string
is trimmed. -/
def removeTrailingCommaTrim (cs : List Char) : List Char :=
  let t1 := rstripWs cs
  jsTrimList (match t1.getLast? with
    | some ',' => rstripWs t1.dropLast
    | _ => cs)

/-- The full description-isolation pipeline of `analyzePrompt`
(lines 187–201 of `App.tsx`), producing `descriptionText`. -/
def descriptionTextOf (cs : List Char) : List Char :=
  removeTrailingCommaTrim (removeParens (removeBareNumbers none (removeRatios
    (removeMentions (removeFlagsTail (removeImageUrls cs))))))

/-- `descriptionText.split('\n').map(part => part.trim()).filter(part => part.length > 0)`. -/
def descriptionsOf (cs : List Char) : List String :=
  (((descriptionTextOf cs).splitOn '\n').map (fun l => String.mk (jsTrimList l))).filter
    (fun s => s != "")

/-- The `analyzePrompt` decomposition of `App.tsx` (its pure part:
everything except the state writes and the translation call). -/
def analyzePrompt (text : String) : PromptAnalysis :=
  let cs := text.toList
  { imageUrls := dedupFirst ((imageMatchScan cs).map String.mk)
    descriptions := descriptionsOf cs
    parameters := (paramScan cs).map
      (fun nv => { name := nv.1, value := nv.2, enabled := true }) }

/-! ## Sentence alignment (`handleTranslate`, lines 269–288) -/

/-- The generic `String.prototype.split(regex)` loop: `m prev suffix`
returns the number of characters a separator match at the current
position consumes (`prev` is the character before the position, for
lookbehinds), or `none`.  `cur` is the current segment, reversed.
A zero-width match at the start of the current segment does not split
(ECMA's `e = p` rule); a zero-width match elsewhere splits and the scan
then advances one character. -/
def jsSplitGoF (m : Option Char → List Char → Option Nat) (cur : List Char)
    (prev : Option Char) : Nat → List Char → List (List Char)
  | _, [] => [cur.reverse]
  | 0, cs => [cur.reverse ++ cs]
  | f + 1, c :: rs =>
    match m prev (c :: rs) with
    | none => jsSplitGoF m (c :: cur) (some c) f rs
    | some 0 =>
      if cur.isEmpty then jsSplitGoF m (c :: cur) (some c) f rs
      else cur.reverse :: jsSplitGoF m [c] (some c) f rs
    | some (k + 1) =>
      cur.reverse ::
        jsSplitGoF m [] (((c :: rs).take (k + 1)).getLastD c) f ((c :: rs).drop (k + 1))

/-- `String.prototype.split(regex)`. -/
def jsSplit (m : Option Char → List Char → Option Nat) (cs : List Char) : List (List Char) :=
  jsSplitGoF m [] none cs.length cs

/-- Separator of the English sentence split: the regex
`(?<=[.!?])\s+` (a lookbehind for sentence punctuation, then at least
one whitespace character, greedy). -/
def engSplitMatch (prev : Option Char) (suffix : List Char) : Option Nat :=
  match prev with
  | some p =>
    if p == '.' || p == '!' || p == '?' then
      let k := (suffix.takeWhile jsIsWs).length
      if k == 0 then none else some k
    else none
  | none => none

/-- Separator of the translated sentence split: the regex
`(?<=[。！？])\s*` (a lookbehind for CJK sentence punctuation, then any
amount of whitespace, possibly none). -/
def cjkSplitMatch (prev : Option Char) (suffix : List Char) : Option Nat :=
  match prev with
  | some p =>
    if p == '。' || p == '！' || p == '？' then
      some ((suffix.takeWhile jsIsWs).length)
    else none
  | none => none

/-- `text.split(engRegex).filter(part => part.trim()).map(part => part.trim())`. -/
def originalParts (text : String) : List String :=
  (((jsSplit engSplitMatch text.toList).map String.mk).filter
    (fun s => jsTrimStr s != "")).map jsTrimStr

/-- `result.split(cjkRegex).filter(part => part.trim()).map(part => part.trim())`. -/
def translatedParts (text : String) : List String :=
  (((jsSplit cjkSplitMatch text.toList).map String.mk).filter
    (fun s => jsTrimStr s != "")).map jsTrimStr

/-- `originalParts.map((part, index) => ({original: part, translated:
translatedParts[index] || '', index}))`. -/
def alignGo (tparts : List String) (i : Nat) : List String → List TextMapping
  | [] => []
  | p :: ps =>
    { original := p, translated := tparts.getD i "", index := i } :: alignGo tparts (i + 1) ps

/-- The sentence aligner: the mapping construction of `handleTranslate`
applied to the description text and the translation result. -/
def align (original translated : String) : List TextMapping :=
  alignGo (translatedParts translated) 0 (originalParts original)

/-! ## Translation error handling (`handleTranslate`, lines 260–305) -/

/-- The reactive state of the `App` component that `handleTranslate`
reads or writes. -/
structure AppState where
  prompt : String
  analysis : Option PromptAnalysis
  translatedText : String
  translationError : Option String
  textMappings : List TextMapping
  isTranslating : Bool
deriving Repr

/-- The outcome of awaiting `selectedService.translate(text)`: success
with the translated text, or a thrown value (with whether it is an
`Error` instance and its message). -/
inductive TranslateOutcome
  | ok (result : String)
  | failure (isError : Bool) (message : String)
deriving DecidableEq, Repr

/-- The user-facing message for the provider's insufficient-balance
error code `54004`. -/
def insufficientBalanceMessage : String :=
  "翻译服务余额不足，请联系管理员充值"

/-- The fallback message for a thrown value that is not an `Error`. -/
def unknownErrorMessage : String :=
  "未知错误"

/-- The text stored in `translatedText` when translation fails. -/
def translateFailedText : String :=
  "翻译失败"

/-- `handleTranslate` as a state transition, with the translation call's
outcome as a parameter.  An empty `text` returns before any state write
(`if (!text) return`). -/
def handleTranslate (st : AppState) (text : String) (outcome : TranslateOutcome) : AppState :=
  if text = "" then st
  else
    match outcome with
    | TranslateOutcome.ok result =>
      { st with
        translatedText := result
        translationError := none
        textMappings := align text result
        isTranslating := false }
    | TranslateOutcome.failure isError msg =>
      { st with
        translatedText := translateFailedText
        translationError := some (if isError then
            (if jsIncludes msg ("54004") then insufficientBalanceMessage else msg)
          else unknownErrorMessage)
        isTranslating := false }

/-! ## Theorems -/

theorem alignGo_length (tparts : List String) (i : Nat) (ps : List String) :
    (alignGo tparts i ps).length = ps.length := by
  induction ps generalizing i with
  | nil => rfl
  | cons p ps ih => simp [alignGo, ih]

theorem alignGo_getD (tparts : List String) (ps : List String) (i k : Nat)
    (h : k < ps.length) :
    (alignGo tparts i ps).getD k { original := "", translated := "", index := 0 } =
      { original := ps.getD k "", translated := tparts.getD (i + k) "",
        index := i + k } := by
  induction ps generalizing i k with
  | nil => simp at h
  | cons p ps ih =>
    cases k with
    | zero => simp [alignGo]
    | succ k =>
      have hk : k < ps.length := by simpa using h
      have e : i + 1 + k = i + (k + 1) := by omega
      have := ih (i + 1) k hk
      rw [e] at this
      simp only [alignGo, List.getD_cons_succ, List.length_cons, this]


/-- C5: `align` is an index-aligned zip: the result has one pair per
original sentence part; pair `k` carries `originalParts[k]`, the
`k`-th translated part or `""` when it does not exist, and index `k`;
excess translated parts are discarded.  In particular
`align("One. Two. Three.", "一。")` yields three pairs with indices 1
and 2 having empty translations. -/
theorem claim5_align_zip :
    (∀ o t : String, (align o t).length = (originalParts o).length) ∧
    (∀ (o t : String) (k : Nat), k < (originalParts o).length →
      (align o t).getD k { original := "", translated := "", index := 0 } =
        { original := (originalParts o).getD k "",
          translated := (translatedParts t).getD k "", index := k }) ∧
    (align ("One. Two. Three.") ("一。") =
      [{ original := "One.", translated := "一。", index := 0 },
       { original := "Two.", translated := "", index := 1 },
       { original := "Three.", translated := "", index := 2 }]) := by
  refine ⟨fun o t => alignGo_length _ _ _, fun o t k h => ?_, by decide⟩
  simpa using alignGo_getD (translatedParts t) (originalParts o) 0 k h

/-- Witness for C5 at a concrete input. -/
theorem claim5_align_zip_witness :
    (align ("One. Two. Three.") ("一。")).getD 1
        { original := "", translated := "", index := 0 } =
      { original := (originalParts ("One. Two. Three.")).getD 1 "",
        translated := (translatedParts ("一。")).getD 1 "", index := 1 } :=
  claim5_align_zip.2.1 ("One. Two. Three.") ("一。") 1 (by decide)

/-- C6: the aligner splits the original text after sentence-terminal
punctuation followed by whitespace and the translated text after CJK
sentence-terminal punctuation with optional whitespace, trimming pieces
and dropping empties; on `"A cat. A dog!"` and `"一只猫。一只狗！"` this
yields exactly the two expected pairs. -/
theorem claim6_align_splitting :
    (originalParts ("A cat. A dog!") = ["A cat.", "A dog!"]) ∧
    (translatedParts ("一只猫。一只狗！") = ["一只猫。", "一只狗！"]) ∧
    (align ("A cat. A dog!") ("一只猫。一只狗！") =
      [{ original := "A cat.", translated := "一只猫。", index := 0 },
       { original := "A dog!", translated := "一只狗！", index := 1 }]) :=
  ⟨by decide, by decide, by decide⟩

/-- C3: the extracted parameters are exactly the global matches of the
flag regex over the original text, in order, each with `enabled` true
and value `""` when absent; duplicate names are preserved. -/
theorem claim3_parameter_extraction :
    (∀ text : String, (analyzePrompt text).parameters =
      (paramScan text.toList).map
        (fun nv => { name := nv.1, value := nv.2, enabled := true })) ∧
    ((analyzePrompt ("--ar 1:1 --ar 2:1")).parameters =
      [{ name := "ar", value := "1:1", enabled := true },
       { name := "ar", value := "2:1", enabled := true }]) ∧
    (∀ text : String,
      ((analyzePrompt text).parameters.all (fun p => p.enabled)) = true) := by
  refine ⟨fun text => rfl, by decide, fun text => ?_⟩
  show (((paramScan text.toList).map
      (fun nv => ExtractedParameter.mk nv.1 nv.2 true)).all (fun p => p.enabled)) = true
  exact List.all_eq_true.mpr (fun _ hx => by
    rcases List.mem_map.mp hx with ⟨nv, _, rfl⟩
    rfl)

/-- C8: the decomposer and the aligner are total functions of the
embedding; empty (or all-whitespace) input yields empty collections,
and an empty original text yields an empty alignment whatever the
translated text is. -/
theorem claim8_totality :
    (analyzePrompt ("") = { imageUrls := [], descriptions := [], parameters := [] }) ∧
    (analyzePrompt ("   \n  ") = { imageUrls := [], descriptions := [], parameters := [] }) ∧
    (∀ t : String, align ("") t = []) :=
  ⟨by decide, by decide, fun t => rfl⟩

/-- C9: when the translation call fails with an `Error`, the surfaced
message is the dedicated insufficient-balance message exactly when the
error message contains the provider code `54004`, and the raw message
otherwise; the derived analysis is untouched and only the
translation-result state is marked failed. -/
theorem claim9_translation_failure (st : AppState) (text msg : String)
    (h : text ≠ "") :
    ((handleTranslate st text (TranslateOutcome.failure true msg)).analysis = st.analysis) ∧
    ((handleTranslate st text (TranslateOutcome.failure true msg)).translationError =
      some (if jsIncludes msg ("54004") then insufficientBalanceMessage else msg)) ∧
    ((handleTranslate st text (TranslateOutcome.failure true msg)).translatedText =
      translateFailedText) ∧
    ((handleTranslate st text (TranslateOutcome.failure true msg)).textMappings =
      st.textMappings) := by
  unfold handleTranslate
  rw [if_neg h]
  exact ⟨rfl, rfl, rfl, rfl⟩

/-- Witness for C9 at a concrete input. -/
theorem claim9_translation_failure_witness :
    ((handleTranslate
        { prompt := "", analysis := none, translatedText := "", translationError := none,
          textMappings := [], isTranslating := true }
        ("a cat") (TranslateOutcome.failure true ("error 54004: quota"))).translationError =
      some (if jsIncludes ("error 54004: quota") ("54004") then insufficientBalanceMessage
        else ("error 54004: quota"))) :=
  (claim9_translation_failure _ ("a cat") ("error 54004: quota") (by decide)).2.1

/-- One pattern character of a dynamically interpolated name matched
against one input character: in the built `RegExp`, a `.` in the name
is the any-character metacharacter (matching everything but a line
terminator, there being no `s` flag); every non-metacharacter is a
literal.  Valid for names whose only metacharacter is `.`. -/
def dynNameCharMatch (pc c : Char) : Bool :=
  if pc = '.' then !(isLineTerminator c) else pc == c

/-- Matching of an interpolated name (metacharacter `.` allowed) at the
head of the input; each pattern character consumes exactly one input
character, so no backtracking arises.  Returns the number of characters
consumed. -/
def matchDynLit : List Char → List Char → Option Nat
  | [], _ => some 0
  | _ :: _, [] => none
  | pc :: ps, c :: cs =>
    if dynNameCharMatch pc c then (matchDynLit ps cs).map (· + 1) else none

/-- `updMatchAt` with the dynamically built regex interpreted: a `.` in
the parameter name is the JS any-character metacharacter.  For purely
alphanumeric names this agrees with `updMatchAt`. -/
def updMatchAtDyn (nm cs : List Char) : Option Nat :=
  match cs with
  | '-' :: '-' :: rest =>
    match matchDynLit nm rest with
    | some k =>
      let r1 := rest.drop k
      let g := match paramValuePart r1 with
        | some (_, kk) => kk
        | none => 0
      let w := ((r1.drop g).takeWhile jsIsWs).length
      some (2 + k + g + w)
    | none => none
  | _ => none

/-- `replaceFirstUpd` over the dynamically interpreted pattern. -/
def replaceFirstUpdDyn (nm repl : List Char) : List Char → List Char
  | [] => []
  | c :: rest =>
    match updMatchAtDyn nm (c :: rest) with
    | some n => repl ++ rest.drop (n - 1)
    | none => c :: replaceFirstUpdDyn nm repl rest

/-- `updateParameter` with the dynamically built regex interpreted
(names whose only metacharacter is `.`); for purely alphanumeric names
this agrees with `updateParameter`. -/
def updateParameterDyn (prompt key newValue : String) : String :=
  jsTrimStr (String.mk (replaceFirstUpdDyn key.toList
    ("--" ++ key ++ " " ++ jsTemplateOpt (updateEffectiveValue key newValue) ++ " ").toList
    prompt.toList))

theorem replaceFirstUpd_of_no_match (nm repl : List Char) :
    ∀ cs : List Char, hasUpdMatch nm cs = false → replaceFirstUpd nm repl cs = cs := by
  intro cs
  induction cs with
  | nil => intro _; rfl
  | cons c rest ih =>
    intro h
    unfold hasUpdMatch at h
    rw [Bool.or_eq_false_iff] at h
    unfold replaceFirstUpd
    rcases h with ⟨h1, h2⟩
    rcases hm : updMatchAt nm (c :: rest) with _ | n
    · rw [ih h2]
    · rw [hm] at h1
      simp at h1

/-- C10 counterexample: for the name `"."`, the flag-occurrence pattern
described by the claim — `--` followed by the name — occurs nowhere in
the prompt `"--x"`, yet the program's dynamically built regex `--.` has
`.` as the any-character metacharacter, so `update("--x", ".", "9")`
rewrites the prompt to `"--. 9"` instead of returning it unchanged up
to trimming. -/
theorem claim10_counterexample :
    hasUpdMatch ((".").toList) (("--x").toList) = false ∧
    containsSeq (("--.").toList) (("--x").toList) = false ∧
    updateParameterDyn ("--x") (".") ("9") = "--. 9" ∧
    updateParameterDyn ("--x") (".") ("9") ≠ jsTrimStr ("--x") :=
  ⟨by decide, by decide, by decide, by decide⟩

/-- C10 (amended): for every prompt, every candidate value and every
parameter name consisting solely of alphanumeric characters — so the
interpolated pattern is a well-formed regex matching the name
literally, as for every name the UI can pass — if the flag pattern for
that name matches nowhere in the prompt, `updateParameter` is the
identity up to trimming: it neither throws nor inserts the flag.  (A
name with regex metacharacters escapes this: `"."` matches and rewrites
other flags, and an invalid pattern such as `"("` makes the `RegExp`
constructor throw.) -/
theorem claim10_update_missing (prompt key value : String)
    (halnum : key.toList.all Char.isAlphanum = true)
    (h : hasUpdMatch key.toList prompt.toList = false) :
    updateParameter prompt key value = jsTrimStr prompt := by
  unfold updateParameter
  rw [replaceFirstUpd_of_no_match _ _ _ h]
  rfl

/-- Witness for C10 at a concrete input. -/
theorem claim10_update_missing_witness :
    updateParameter (" hello ") ("chaos") ("77") = jsTrimStr (" hello ") :=
  claim10_update_missing (" hello ") ("chaos") ("77") (by decide) (by decide)

/-- The default-value priority order exactly as the specification states
it: (1) `defaultValue` if defined; (2) for a number-typed parameter the
string form of `minimum` if defined, else `"1"`; (3) the first entry of
a non-empty `allowedValues`; (4) `"1"`. -/
def specResolveDefault (key : String) : String :=
  match PARAMETER_INFO key with
  | some info =>
    match info.default with
    | some d => d
    | none =>
      if info.type = some ParamType.number then
        match info.min with
        | some m => toString m
        | none => "1"
      else
        match info.values with
        | some (v :: _) => v
        | _ => "1"
  | none => "1"

/-- C2 counterexample: `add("cat ", "style")` is not the trimmed prompt
followed by one space and `--style raw` — the code appends first and
trims afterwards, so the prompt's trailing whitespace survives in the
middle. -/
theorem claim2_counterexample :
    handleAddParameter ("cat ") ("style") = some ("cat  --style raw") ∧
    handleAddParameter ("cat ") ("style") ≠
      some (jsTrimStr ("cat ") ++ " --style raw") :=
  ⟨by decide, by decide⟩

/-- C2 (amended): both `updateParameter` (on an empty or
whitespace-only candidate) and `handleAddParameter` resolve the
effective value by the specified priority order, for every parameter
name; `add(prompt, "style")` produces `trim(prompt ++ " --style raw")`,
which equals the trimmed prompt followed by one space and `--style raw`
only when the prompt has no trailing whitespace. -/
theorem claim2_default_resolution :
    (∀ key : String, codeDefaultValue key = some (specResolveDefault key)) ∧
    (∀ key v : String, jsTrimStr v = "" →
      updateEffectiveValue key v = some (specResolveDefault key)) ∧
    (∀ p : String, handleAddParameter p ("style") =
      some (jsTrimStr (p ++ " --style raw"))) := by
  have base : ∀ key : String, codeDefaultValue key = some (specResolveDefault key) := by
    intro key
    by_cases h1 : key = "ar"
    · subst h1; decide
    by_cases h2 : key = "chaos"
    · subst h2; decide
    by_cases h3 : key = "quality"
    · subst h3; decide
    by_cases h4 : key = "seed"
    · subst h4; decide
    by_cases h5 : key = "stop"
    · subst h5; decide
    by_cases h6 : key = "style"
    · subst h6; decide
    by_cases h7 : key = "stylize"
    · subst h7; decide
    by_cases h8 : key = "tile"
    · subst h8; decide
    by_cases h9 : key = "version"
    · subst h9; decide
    by_cases h10 : key = "weird"
    · subst h10; decide
    by_cases h11 : key = "iw"
    · subst h11; decide
    by_cases h12 : key = "v"
    · subst h12; decide
    by_cases h13 : key = "s"
    · subst h13; decide
    unfold codeDefaultValue specResolveDefault PARAMETER_INFO
    rw [if_neg h1, if_neg h2, if_neg h3, if_neg h4, if_neg h5, if_neg h6, if_neg h7,
      if_neg h8, if_neg h9, if_neg h10, if_neg h11, if_neg h12, if_neg h13]
  refine ⟨base, fun key v hv => ?_, fun p => ?_⟩
  · unfold updateEffectiveValue
    rw [hv, if_pos rfl]
    exact base key
  · have hl : PARAMETER_INFO ("style") = some styleInfo := by decide
    unfold handleAddParameter
    rw [hl, Option.map_some']
    have harg : p ++ " --" ++ "style" ++ " " ++
        jsTemplateOpt (jsOrStr styleInfo.default (codeFallback styleInfo)) =
        p ++ " --style raw" := by
      rw [String.append_assoc, String.append_assoc, String.append_assoc]
      rfl
    rw [harg]

/-- Witness for C2 at a concrete input. -/
theorem claim2_default_resolution_witness :
    updateEffectiveValue ("chaos") ("  ") = some (specResolveDefault ("chaos")) :=
  claim2_default_resolution.2.1 ("chaos") ("  ") (by decide)

/-- The cut point the amended description-isolation claim describes:
the smallest index at which a `--` occurs that has no line terminator
anywhere after it (hence a `--` on the final line of the text). -/
def firstFlagTailIdx (cs : List Char) : Option Nat :=
  (List.range cs.length).find? (fun i =>
    (cs.get? i == some '-') && (cs.get? (i + 1) == some '-') &&
    ((cs.drop (i + 2)).all (fun x => !(isLineTerminator x))))

/-- C1 counterexample: the input `"a --x\nb"` contains a `--` flag
token (at index 2), yet the text after it is not removed from the
descriptions: the free text `"b"` on the following line — and even the
flag's own line — survives into `descriptions`, which the claim says
should be `["a"]`. -/
theorem claim1_counterexample :
    (analyzePrompt ("a --x\nb")).descriptions = ["a --x", "b"] ∧
    (analyzePrompt ("a --x\nb")).descriptions ≠ ["a"] :=
  ⟨by decide, by decide⟩

/-- C1 (amended): the flag-stripping step of description isolation
removes everything from the first `--` that is followed by no line
terminator (i.e. the first `--` on the final line) through the end of
the text; when every `--` is followed by a later line terminator — or
none occurs — this step removes nothing, so text after such a flag can
still appear in descriptions.  (`$` in the non-multiline regex `--.*$`
only anchors at the very end of the input.) -/
theorem claim1_flag_cut (text : String) :
    removeFlagsTail (removeImageUrls text.toList) =
      (match firstFlagTailIdx (removeImageUrls text.toList) with
       | some i => (removeImageUrls text.toList).take i
       | none => removeImageUrls text.toList) := by
  generalize removeImageUrls text.toList = cs
  have hcond : ∀ (d : Char) (l : List Char),
      ((((d :: l).get? 0 == some '-') && (((d :: l).get? 1) == some '-') &&
        (((d :: l).drop 2).all (fun x => !(isLineTerminator x)))) = true)
      ↔ (d = '-' ∧ l.head? = some '-' ∧
        (l.tail.all (fun x => !(isLineTerminator x))) = true) := by
    intro d l
    cases l with
    | nil => simp
    | cons e l' =>
      simp only [List.get?_cons_succ, List.get?_cons_zero, List.drop_succ_cons,
        List.drop_one, Bool.and_eq_true, beq_iff_eq, Option.some.injEq, List.head?_cons,
        List.tail_cons, List.drop_zero]
      exact and_assoc
  induction cs with
  | nil => rfl
  | cons c rest ih =>
    by_cases h0 : c = '-' ∧ rest.head? = some '-' ∧
        rest.tail.all (fun x => !(isLineTerminator x)) = true
    · have hL : removeFlagsTail (c :: rest) = [] := by
        simp only [removeFlagsTail]
        rw [if_pos h0]
      have hp : (((c :: rest).get? 0 == some '-') && ((c :: rest).get? (0 + 1) == some '-') &&
          (((c :: rest).drop (0 + 2)).all (fun x => !(isLineTerminator x)))) = true :=
        (hcond c rest).mpr h0
      have hfind : firstFlagTailIdx (c :: rest) = some 0 := by
        unfold firstFlagTailIdx
        rw [List.length_cons, List.range_succ_eq_map]
        exact List.find?_cons_of_pos _ hp
      rw [hL, hfind]
      rfl
    · have hL : removeFlagsTail (c :: rest) = c :: removeFlagsTail rest := by
        simp only [removeFlagsTail]
        rw [if_neg h0]
      have hp : ¬ ((((c :: rest).get? 0 == some '-') && ((c :: rest).get? (0 + 1) == some '-') &&
          (((c :: rest).drop (0 + 2)).all (fun x => !(isLineTerminator x)))) = true) :=
        fun hx => h0 ((hcond c rest).mp hx)
      have hshift : firstFlagTailIdx (c :: rest) =
          (firstFlagTailIdx rest).map Nat.succ := by
        unfold firstFlagTailIdx
        rw [List.length_cons, List.range_succ_eq_map]
        rw [show (List.find? (fun i =>
            ((c :: rest).get? i == some '-') && ((c :: rest).get? (i + 1) == some '-') &&
            (((c :: rest).drop (i + 2)).all (fun x => !(isLineTerminator x))))
            (0 :: List.map Nat.succ (List.range rest.length))) =
          List.find? (fun i =>
            ((c :: rest).get? i == some '-') && ((c :: rest).get? (i + 1) == some '-') &&
            (((c :: rest).drop (i + 2)).all (fun x => !(isLineTerminator x))))
            (List.map Nat.succ (List.range rest.length)) from
          List.find?_cons_of_neg _ hp]
        rw [List.find?_map]
        rfl
      rw [hL, hshift, ih]
      rcases firstFlagTailIdx rest with _ | i
      · rfl
      · rfl

/-! ## C4: invariants of `analyzePrompt` -/

/-- Case-insensitive equality of two character lists. -/
def ciEqList : List Char → List Char → Bool
  | [], [] => true
  | a :: as, b :: bs => ciChar a b && ciEqList as bs
  | _, _ => false

/-- The language of the image-URL regex, stated declaratively: a
case-insensitive `http://` or `https://` prefix, then either a
non-empty body of `[^\s<>"']` characters followed by a dot and one of
the image extensions, or the literal `s.mj.run/` followed by a
non-empty run of `[^\s<>"']` characters, then an optional query part
`?` followed by `[^\s<>"']` characters. -/
def ImageUrlShape (s : String) : Prop :=
  ∃ (pre core query : List Char),
    s.toList = pre ++ core ++ query ∧
    (ciEqList pre (("http://").toList) = true ∨
      ciEqList pre (("https://").toList) = true) ∧
    ((∃ body ext, core = body ++ '.' :: ext ∧ body ≠ [] ∧ body.all urlChar = true ∧
        ∃ e ∈ imageExts, ciEqList ext e = true) ∨
      (∃ lit run, core = lit ++ run ∧ ciEqList lit (("s.mj.run/").toList) = true ∧
        run ≠ [] ∧ run.all urlChar = true)) ∧
    (query = [] ∨ ∃ t, query = '?' :: t ∧ t.all urlChar = true)

theorem matchLitCI_spec (lit : List Char) :
    ∀ (cs t r : List Char), matchLitCI lit cs = some (t, r) →
      cs = t ++ r ∧ ciEqList t lit = true := by
  induction lit with
  | nil =>
    intro cs t r h
    unfold matchLitCI at h
    simp only [Option.some.injEq, Prod.mk.injEq] at h
    obtain ⟨h1, h2⟩ := h
    subst h1
    subst h2
    exact ⟨rfl, rfl⟩
  | cons l ls ih =>
    intro cs t r h
    cases cs with
    | nil => simp [matchLitCI] at h
    | cons c cs' =>
      unfold matchLitCI at h
      by_cases hc : ciChar c l
      · rw [if_pos hc] at h
        cases hrec : matchLitCI ls cs' with
        | none => rw [hrec] at h; simp at h
        | some tr =>
          rw [hrec] at h
          obtain ⟨t', r'⟩ := tr
          simp only [Option.some.injEq, Prod.mk.injEq] at h
          obtain ⟨h1, h2⟩ := h
          subst h1
          subst h2
          obtain ⟨e1, e2⟩ := ih cs' t' r' hrec
          subst e1
          exact ⟨rfl, by simp [ciEqList, hc, e2]⟩
      · rw [if_neg hc] at h
        simp at h

theorem matchExtGo_spec (es : List (List Char)) :
    ∀ (cs t r : List Char), matchExtGo es cs = some (t, r) →
      cs = t ++ r ∧ ∃ e ∈ es, ciEqList t e = true := by
  induction es with
  | nil => intro cs t r h; simp [matchExtGo] at h
  | cons e es ih =>
    intro cs t r h
    unfold matchExtGo at h
    cases hm : matchLitCI e cs with
    | some tr =>
      obtain ⟨t', r'⟩ := tr
      rw [hm] at h
      simp only [Option.some.injEq, Prod.mk.injEq] at h
      obtain ⟨rfl, rfl⟩ := h
      obtain ⟨e1, e2⟩ := matchLitCI_spec e cs t' r' hm
      exact ⟨e1, e, List.mem_cons_self e es, e2⟩
    | none =>
      rw [hm] at h
      obtain ⟨e1, ee, hmem, e2⟩ := ih cs t r h
      exact ⟨e1, ee, List.mem_cons_of_mem e hmem, e2⟩

theorem alt1Cont_spec :
    ∀ (rest bodyRev core r : List Char), bodyRev ≠ [] → bodyRev.all urlChar = true →
      alt1Cont bodyRev rest = some (core, r) →
      bodyRev.reverse ++ rest = core ++ r ∧
      ∃ body ext, core = body ++ '.' :: ext ∧ body ≠ [] ∧ body.all urlChar = true ∧
        ∃ e ∈ imageExts, ciEqList ext e = true := by
  intro rest
  induction rest with
  | nil => intro bodyRev core r _ _ h; simp [alt1Cont] at h
  | cons c r2 ih =>
    intro bodyRev core r hne hall h
    unfold alt1Cont at h
    by_cases hc : c = '.'
    · rw [if_pos hc] at h
      cases hext : matchExtGo imageExts r2 with
      | some tr =>
        obtain ⟨ext, r3⟩ := tr
        rw [hext] at h
        simp only [Option.some.injEq, Prod.mk.injEq] at h
        obtain ⟨rfl, rfl⟩ := h
        obtain ⟨e1, ee, hmem, e2⟩ := matchExtGo_spec imageExts r2 ext r3 hext
        subst hc
        constructor
        · rw [e1]
          simp
        · exact ⟨bodyRev.reverse, ext, rfl, by simp [hne], by simp [hall], ee, hmem, e2⟩
      | none =>
        rw [hext] at h
        by_cases hu : urlChar c = true
        · rw [if_pos hu] at h
          obtain ⟨e1, body, ext, e2, e3, e4, ee, hmem, e5⟩ :=
            ih (c :: bodyRev) core r (by simp) (by simp [hu, hall]) h
          constructor
          · rw [← e1]
            simp
          · exact ⟨body, ext, e2, e3, e4, ee, hmem, e5⟩
        · rw [if_neg hu] at h
          simp at h
    · rw [if_neg hc] at h
      simp only at h
      by_cases hu : urlChar c = true
      · rw [if_pos hu] at h
        obtain ⟨e1, body, ext, e2, e3, e4, ee, hmem, e5⟩ :=
          ih (c :: bodyRev) core r (by simp) (by simp [hu, hall]) h
        constructor
        · rw [← e1]
          simp
        · exact ⟨body, ext, e2, e3, e4, ee, hmem, e5⟩
      · rw [if_neg hu] at h
        simp at h

theorem matchAlt1_spec (cs core r : List Char) (h : matchAlt1 cs = some (core, r)) :
    cs = core ++ r ∧
    ∃ body ext, core = body ++ '.' :: ext ∧ body ≠ [] ∧ body.all urlChar = true ∧
      ∃ e ∈ imageExts, ciEqList ext e = true := by
  cases cs with
  | nil => simp [matchAlt1] at h
  | cons c rest =>
    simp only [matchAlt1] at h
    by_cases hu : urlChar c = true
    · rw [if_pos hu] at h
      have := alt1Cont_spec rest [c] core r (by simp) (by simp [hu]) h
      simpa using this
    · rw [if_neg hu] at h
      simp at h

theorem matchAlt2_spec (cs core r : List Char) (h : matchAlt2 cs = some (core, r)) :
    cs = core ++ r ∧
    ∃ lit run, core = lit ++ run ∧ ciEqList lit (("s.mj.run/").toList) = true ∧
      run ≠ [] ∧ run.all urlChar = true := by
  unfold matchAlt2 at h
  cases hm : matchLitCI ['s','.','m','j','.','r','u','n','/'] cs with
  | none => rw [hm] at h; simp at h
  | some tr =>
    rw [hm] at h
    obtain ⟨lit, r'⟩ := tr
    obtain ⟨e1, e2⟩ := matchLitCI_spec _ cs lit r' hm
    simp only at h
    by_cases hrun : (r'.takeWhile urlChar).isEmpty = true
    · rw [if_pos hrun] at h
      simp at h
    · rw [if_neg hrun] at h
      simp only [Option.some.injEq, Prod.mk.injEq] at h
      obtain ⟨h1, h2⟩ := h
      subst h1
      subst h2
      constructor
      · rw [e1, List.append_assoc, List.takeWhile_append_dropWhile]
      · refine ⟨lit, r'.takeWhile urlChar, rfl, e2, ?_, ?_⟩
        · intro hx
          rw [hx] at hrun
          simp at hrun
        · exact List.all_eq_true.mpr (fun x hx => List.mem_takeWhile_imp hx)

theorem matchQueryOpt_spec (cs : List Char) :
    cs = (matchQueryOpt cs).1 ++ (matchQueryOpt cs).2 ∧
    ((matchQueryOpt cs).1 = [] ∨ ∃ t, (matchQueryOpt cs).1 = '?' :: t ∧
      t.all urlChar = true) := by
  cases cs with
  | nil => exact ⟨rfl, Or.inl rfl⟩
  | cons c rest =>
    by_cases hc : c = '?'
    · subst hc
      unfold matchQueryOpt
      constructor
      · simp [List.takeWhile_append_dropWhile]
      · exact Or.inr ⟨rest.takeWhile urlChar, rfl,
          List.all_eq_true.mpr (fun x hx => List.mem_takeWhile_imp hx)⟩
    · have : matchQueryOpt (c :: rest) = ([], c :: rest) := by
        unfold matchQueryOpt
        cases c with
        | mk v h => simp_all [matchQueryOpt]
      rw [this]
      exact ⟨rfl, Or.inl rfl⟩

theorem ciEqList_append (a₁ a₂ b₁ b₂ : List Char) (h₁ : ciEqList a₁ b₁ = true)
    (h₂ : ciEqList a₂ b₂ = true) : ciEqList (a₁ ++ a₂) (b₁ ++ b₂) = true := by
  induction a₁ generalizing b₁ with
  | nil =>
    cases b₁ with
    | nil => simpa using h₂
    | cons b bs => simp [ciEqList] at h₁
  | cons a as ih =>
    cases b₁ with
    | nil => simp [ciEqList] at h₁
    | cons b bs =>
      simp only [ciEqList, Bool.and_eq_true] at h₁
      simpa [ciEqList, h₁.1] using ih bs h₁.2

theorem matchSchemeS_spec (r1 : List Char) :
    r1 = (matchSchemeS r1).1 ++ (matchSchemeS r1).2 ∧
    ((matchSchemeS r1).1 = [] ∨
      ∃ c, (matchSchemeS r1).1 = [c] ∧ ciChar c 's' = true) := by
  cases r1 with
  | nil => exact ⟨rfl, Or.inl rfl⟩
  | cons c rr =>
    simp only [matchSchemeS]
    by_cases hcs : ciChar c 's' = true
    · rw [if_pos hcs]
      exact ⟨rfl, Or.inr ⟨c, rfl, hcs⟩⟩
    · rw [if_neg hcs]
      exact ⟨rfl, Or.inl rfl⟩

theorem matchAlternation_spec (r3 core r4 : List Char)
    (h : matchAlternation r3 = some (core, r4)) :
    r3 = core ++ r4 ∧
    ((∃ body ext, core = body ++ '.' :: ext ∧ body ≠ [] ∧ body.all urlChar = true ∧
        ∃ e ∈ imageExts, ciEqList ext e = true) ∨
      (∃ lit run, core = lit ++ run ∧ ciEqList lit (("s.mj.run/").toList) = true ∧
        run ≠ [] ∧ run.all urlChar = true)) := by
  unfold matchAlternation at h
  cases h1 : matchAlt1 r3 with
  | some x =>
    obtain ⟨xc, xr⟩ := x
    rw [h1] at h
    simp only [Option.some.injEq, Prod.mk.injEq] at h
    obtain ⟨rfl, rfl⟩ := h
    obtain ⟨g1, g2⟩ := matchAlt1_spec r3 xc xr h1
    exact ⟨g1, Or.inl g2⟩
  | none =>
    rw [h1] at h
    obtain ⟨g1, g2⟩ := matchAlt2_spec r3 core r4 h
    exact ⟨g1, Or.inr g2⟩

theorem matchImageAt_spec (cs m r : List Char) (h : matchImageAt cs = some (m, r)) :
    cs = m ++ r ∧ ImageUrlShape (String.mk m) := by
  unfold matchImageAt at h
  cases hhp : matchLitCI ['h','t','t','p'] cs with
  | none => rw [hhp] at h; simp at h
  | some tr₁ =>
    obtain ⟨hp, r1⟩ := tr₁
    rw [hhp] at h
    obtain ⟨ehp, chp⟩ := matchLitCI_spec _ cs hp r1 hhp
    simp only at h
    cases hcl : matchLitCI [':','/','/'] (matchSchemeS r1).2 with
    | none => rw [hcl] at h; simp at h
    | some tr₂ =>
      obtain ⟨cl, r3⟩ := tr₂
      rw [hcl] at h
      obtain ⟨ecl, ccl⟩ := matchLitCI_spec _ (matchSchemeS r1).2 cl r3 hcl
      simp only at h
      cases hco : matchAlternation r3 with
      | none => rw [hco] at h; simp at h
      | some trc =>
        obtain ⟨core, r4⟩ := trc
        rw [hco] at h
        simp only [Option.some.injEq, Prod.mk.injEq] at h
        obtain ⟨rfl, rfl⟩ := h
        obtain ⟨g1, g2⟩ := matchAlternation_spec r3 core r4 hco
        obtain ⟨q1, q2⟩ := matchQueryOpt_spec r4
        obtain ⟨s1, s2⟩ := matchSchemeS_spec r1
        constructor
        · conv_lhs => rw [ehp, s1, ecl, g1, q1]
          simp [List.append_assoc]
        · refine ⟨hp ++ (matchSchemeS r1).1 ++ cl, core, (matchQueryOpt r4).1,
            by simp, ?_, g2, q2⟩
          rcases s2 with hs0 | ⟨c, hs1, hcs⟩
          · left
            rw [hs0]
            have e0 : (("http://").toList : List Char) =
                ['h','t','t','p'] ++ ([] : List Char) ++ [':','/','/'] := by decide
            rw [e0]
            refine ciEqList_append _ _ _ _ (ciEqList_append _ _ _ _ chp (by decide)) ccl
          · right
            rw [hs1]
            have e0 : (("https://").toList : List Char) =
                ['h','t','t','p'] ++ ['s'] ++ [':','/','/'] := by decide
            rw [e0]
            refine ciEqList_append _ _ _ _
              (ciEqList_append _ _ _ _ chp (by simp [ciEqList, hcs])) ccl

theorem imageMatchScanF_shape :
    ∀ (f : Nat) (cs : List Char) (m : List Char), m ∈ imageMatchScanF f cs →
      ImageUrlShape (String.mk m) := by
  intro f
  induction f with
  | zero =>
    intro cs m hm
    cases cs with
    | nil => simp [imageMatchScanF] at hm
    | cons c rest => simp [imageMatchScanF] at hm
  | succ f ih =>
    intro cs m hm
    cases cs with
    | nil => simp [imageMatchScanF] at hm
    | cons c rest =>
      unfold imageMatchScanF at hm
      cases hmm : matchImageAt (c :: rest) with
      | some tr =>
        obtain ⟨m0, r0⟩ := tr
        rw [hmm] at hm
        rcases List.mem_cons.mp hm with h1 | h2
        · subst h1
          exact (matchImageAt_spec _ _ _ hmm).2
        · exact ih _ _ h2
      | none =>
        rw [hmm] at hm
        exact ih _ _ hm

theorem dedupFirstAux_subset (l : List String) :
    ∀ (seen : List String) (x : String), x ∈ dedupFirstAux seen l → x ∈ l := by
  induction l with
  | nil => intro seen x hx; simp [dedupFirstAux] at hx
  | cons y l ih =>
    intro seen x hx
    unfold dedupFirstAux at hx
    by_cases hy : y ∈ seen
    · rw [if_pos hy] at hx
      exact List.mem_cons_of_mem y (ih seen x hx)
    · rw [if_neg hy] at hx
      rcases List.mem_cons.mp hx with h1 | h2
      · subst h1
        exact List.mem_cons_self x l
      · exact List.mem_cons_of_mem y (ih (y :: seen) x h2)

theorem dedupFirstAux_not_seen (l : List String) :
    ∀ (seen : List String) (x : String), x ∈ dedupFirstAux seen l → x ∉ seen := by
  induction l with
  | nil => intro seen x hx; simp [dedupFirstAux] at hx
  | cons y l ih =>
    intro seen x hx
    unfold dedupFirstAux at hx
    by_cases hy : y ∈ seen
    · rw [if_pos hy] at hx
      exact ih seen x hx
    · rw [if_neg hy] at hx
      rcases List.mem_cons.mp hx with h1 | h2
      · subst h1
        exact hy
      · intro hxs
        exact ih (y :: seen) x h2 (List.mem_cons_of_mem y hxs)

theorem dedupFirstAux_nodup (l : List String) :
    ∀ seen : List String, (dedupFirstAux seen l).Nodup := by
  induction l with
  | nil => intro seen; simp [dedupFirstAux]
  | cons y l ih =>
    intro seen
    unfold dedupFirstAux
    by_cases hy : y ∈ seen
    · rw [if_pos hy]
      exact ih seen
    · rw [if_neg hy]
      refine List.nodup_cons.mpr ⟨?_, ih (y :: seen)⟩
      intro hmem
      exact dedupFirstAux_not_seen l (y :: seen) y hmem (List.mem_cons_self y seen)

theorem dedupFirst_nodup (l : List String) : (dedupFirst l).Nodup :=
  dedupFirstAux_nodup l []

theorem dedupFirst_subset (l : List String) (x : String) (h : x ∈ dedupFirst l) : x ∈ l :=
  dedupFirstAux_subset l [] x h

theorem allWs_jsTrimList_eq_nil (l : List Char)
    (h : (jsTrimList l).all jsIsWs = true) : jsTrimList l = [] := by
  by_cases hE : jsTrimList l = []
  · exact hE
  · exfalso
    unfold jsTrimList at hE h
    set X := (l.dropWhile jsIsWs).reverse.dropWhile jsIsWs with hX
    cases hXc : X with
    | nil =>
      rw [hXc] at hE
      simp at hE
    | cons c t =>
      have hhead : jsIsWs c = false := by
        have := List.head?_dropWhile_not jsIsWs (l.dropWhile jsIsWs).reverse
        rw [← hX, hXc] at this
        simpa using this
      have hmem : c ∈ X.reverse := by
        rw [hXc]
        simp
      rw [List.all_eq_true] at h
      have := h c hmem
      rw [hhead] at this
      simp at this

set_option maxHeartbeats 2000000 in
/-- C4: `analyzePrompt`'s image URLs are duplicate-free and every entry
is in the language of the image-URL regex; no description line is empty
or whitespace-only. -/
theorem claim4_invariants (text : String) :
    ((analyzePrompt text).imageUrls.Nodup) ∧
    (∀ u ∈ (analyzePrompt text).imageUrls, ImageUrlShape u) ∧
    (∀ d ∈ (analyzePrompt text).descriptions, d ≠ "" ∧ (d.toList.all jsIsWs) = false) := by
  refine ⟨dedupFirst_nodup _, fun u hu => ?_, fun d hd => ?_⟩
  · have hu2 := dedupFirst_subset _ u hu
    rcases List.mem_map.mp hu2 with ⟨m, hm, rfl⟩
    exact imageMatchScanF_shape _ _ m hm
  · have hd2 := List.mem_filter.mp hd
    have hne : d ≠ "" := by
      have := hd2.2
      simpa using this
    refine ⟨hne, ?_⟩
    rcases List.mem_map.mp hd2.1 with ⟨l, _, rfl⟩
    rw [← Bool.not_eq_true]
    intro hall
    apply hne
    have he : jsTrimList l = [] :=
      allWs_jsTrimList_eq_nil l (by simpa using hall)
    show String.mk (jsTrimList l) = ""
    rw [he]

/-- Witness for C4 at a concrete input. -/
theorem claim4_invariants_witness :
    ImageUrlShape ("http://a.png") ∧
    (("hi" : String) ≠ "" ∧ (("hi" : String).toList.all jsIsWs) = false) :=
  ⟨(claim4_invariants ("http://a.png http://a.png\n hi ")).2.1 ("http://a.png") (by decide),
   (claim4_invariants ("http://a.png http://a.png\n hi ")).2.2 ("hi") (by decide)⟩

/-! ## C7: add-then-update round trip for `chaos` -/

/-- Whether the two-character sequence `--` occurs nowhere in the
list. -/
def ddFree : List Char → Bool
  | [] => true
  | [_] => true
  | a :: b :: rest => !(a == '-' && b == '-') && ddFree (b :: rest)

theorem ddFree_tail (a : Char) (l : List Char) (h : ddFree (a :: l) = true) :
    ddFree l = true := by
  cases l with
  | nil => rfl
  | cons b r =>
    have e : ddFree (a :: b :: r) = (!(a == '-' && b == '-') && ddFree (b :: r)) := rfl
    rw [e, Bool.and_eq_true] at h
    exact h.2

theorem ddFree_dropWhile (p : Char → Bool) (l : List Char) (h : ddFree l = true) :
    ddFree (l.dropWhile p) = true := by
  induction l with
  | nil => simpa using h
  | cons a r ih =>
    rw [List.dropWhile_cons]
    split
    · exact ih (ddFree_tail a r h)
    · exact h

theorem ddFree_append_cons (A : List Char) (c : Char) (l : List Char)
    (hA : ddFree A = true) (hc : (c == '-') = false) (hcl : ddFree (c :: l) = true) :
    ddFree (A ++ c :: l) = true := by
  induction A with
  | nil => simpa using hcl
  | cons a A' ih =>
    cases A' with
    | nil =>
      show (!(a == '-' && c == '-') && ddFree (c :: l)) = true
      rw [hc]
      simp [hcl]
    | cons b A'' =>
      have e : ddFree (a :: b :: A'') = (!(a == '-' && b == '-') && ddFree (b :: A'')) := rfl
      rw [e, Bool.and_eq_true] at hA
      obtain ⟨h1, h2⟩ := hA
      show ddFree (a :: b :: (A'' ++ c :: l)) = true
      have e2 : ddFree (a :: b :: (A'' ++ c :: l)) =
          (!(a == '-' && b == '-') && ddFree (b :: (A'' ++ c :: l))) := rfl
      rw [e2, h1]
      simpa using ih h2

theorem ddFree_no_lead_pair (c : Char) (B' core : List Char)
    (hdd : ddFree (c :: (B' ++ core.take 1)) = true) :
    ¬(c = '-' ∧ (B' ++ core).head? = some '-') := by
  rintro ⟨rfl, hh⟩
  cases B' with
  | nil =>
    cases core with
    | nil => simp at hh
    | cons e ct =>
      simp only [List.nil_append, List.head?_cons, Option.some.injEq] at hh
      subst hh
      simp [ddFree, List.take] at hdd
  | cons b B'' =>
    simp only [List.cons_append, List.head?_cons, Option.some.injEq] at hh
    subst hh
    simp [ddFree] at hdd

theorem matchParamAt_cons_none (c : Char) (l : List Char)
    (h : ¬(c = '-' ∧ l.head? = some '-')) : matchParamAt (c :: l) = none := by
  cases l with
  | nil => rfl
  | cons d rest =>
    have hX : ¬(c = '-' ∧ d = '-') := by
      rintro ⟨h1, h2⟩
      refine h ⟨h1, ?_⟩
      rw [h2]
      rfl
    simp only [matchParamAt]
    rw [if_neg hX]

theorem paramScan_cons_of_none (c : Char) (rest : List Char)
    (h : matchParamAt (c :: rest) = none) : paramScan (c :: rest) = paramScan rest := by
  unfold paramScan
  simp only [List.length_cons]
  have e : paramScanF (rest.length + 1) (c :: rest) =
      (match matchParamAt (c :: rest) with
       | some (nv, n) => nv :: paramScanF rest.length (rest.drop (n - 1))
       | none => paramScanF rest.length rest) := rfl
  rw [e, h]

theorem paramScan_append (B core : List Char)
    (hdd : ddFree (B ++ core.take 1) = true) :
    paramScan (B ++ core) = paramScan core := by
  induction B with
  | nil => rfl
  | cons c B' ih =>
    have hdd' : ddFree (B' ++ core.take 1) = true := ddFree_tail _ _ hdd
    have hnone : matchParamAt (c :: (B' ++ core)) = none :=
      matchParamAt_cons_none c (B' ++ core) (ddFree_no_lead_pair c B' core hdd)
    calc paramScan ((c :: B') ++ core) = paramScan (c :: (B' ++ core)) := rfl
    _ = paramScan (B' ++ core) := paramScan_cons_of_none _ _ hnone
    _ = paramScan core := ih hdd'

theorem updMatchAt_cons_none (nm : List Char) (c : Char) (l : List Char)
    (h : ¬(c = '-' ∧ l.head? = some '-')) : updMatchAt nm (c :: l) = none := by
  unfold updMatchAt
  rw [if_neg]
  intro heq
  simp only [List.length_cons, List.take_succ_cons] at heq
  obtain ⟨h1, h2⟩ := List.cons.inj heq
  cases l with
  | nil => simp at h2
  | cons d rest =>
    rw [List.take_succ_cons] at h2
    obtain ⟨h3, _⟩ := List.cons.inj h2
    refine h ⟨h1, ?_⟩
    rw [h3]
    rfl

theorem replaceFirstUpd_append (nm repl B core : List Char)
    (hdd : ddFree (B ++ core.take 1) = true) :
    replaceFirstUpd nm repl (B ++ core) = B ++ replaceFirstUpd nm repl core := by
  induction B with
  | nil => rfl
  | cons c B' ih =>
    have hdd' : ddFree (B' ++ core.take 1) = true := ddFree_tail _ _ hdd
    have hnone : updMatchAt nm (c :: (B' ++ core)) = none :=
      updMatchAt_cons_none nm c (B' ++ core) (ddFree_no_lead_pair c B' core hdd)
    show replaceFirstUpd nm repl (c :: (B' ++ core)) =
      c :: (B' ++ replaceFirstUpd nm repl core)
    have e : replaceFirstUpd nm repl (c :: (B' ++ core)) =
        (match updMatchAt nm (c :: (B' ++ core)) with
         | some n => repl ++ (B' ++ core).drop (n - 1)
         | none => c :: replaceFirstUpd nm repl (B' ++ core)) := rfl
    rw [e, hnone, ih hdd']

theorem jsTrimList_eq_rstrip (cs : List Char) :
    jsTrimList cs = rstripWs (cs.dropWhile jsIsWs) := rfl

theorem rstripWs_append (x s : List Char)
    (h : (s.reverse.dropWhile jsIsWs).isEmpty = false) :
    rstripWs (x ++ s) = x ++ (s.reverse.dropWhile jsIsWs).reverse := by
  unfold rstripWs
  rw [List.reverse_append, List.dropWhile_append, if_neg (by simp [h])]
  rw [List.reverse_append, List.reverse_reverse]

/-- C7 counterexample: for the prompt `"--ar"` (which contains no
`--chaos` occurrence), the appended `--chaos` flag is captured as the
greedy value of the preceding valueless `--ar` flag on re-analysis, so
the parameters list contains no `chaos` entry at all, let alone exactly
one with value `"50"`. -/
theorem claim7_counterexample :
    handleAddParameter ("--ar") ("chaos") = some ("--ar --chaos 0") ∧
    (analyzePrompt (updateParameter ("--ar --chaos 0") ("chaos") ("50"))).parameters =
      [{ name := "ar", value := "--chaos", enabled := true }] ∧
    ¬(((analyzePrompt (updateParameter ("--ar --chaos 0") ("chaos")
        ("50"))).parameters.filter
        (fun q => q.name == "chaos" && q.value == "50")).length = 1) :=
  ⟨by decide, by decide, by decide⟩

/-- C7 (amended): for every prompt in which the two-character sequence
`--` does not occur at all, add then update then re-analyze yields
exactly one `{name := "chaos", value := "50", enabled := true}`.  (A
prompt already containing `--` can break the round trip: an existing
`--chaos` occurrence makes update rewrite the first one and leave
duplicates, and a trailing valueless flag such as `--ar` swallows the
appended `--chaos` as its value.) -/
theorem claim7_add_update_chaos (p : String) (hdd : ddFree p.toList = true) :
    (analyzePrompt (updateParameter ((handleAddParameter p ("chaos")).getD "")
      ("chaos") ("50"))).parameters =
      [{ name := "chaos", value := "50", enabled := true }] := by
  have hl : PARAMETER_INFO ("chaos") = some chaosInfo := by decide
  have hadd : handleAddParameter p ("chaos") = some (jsTrimStr (p ++ " --chaos 0")) := by
    unfold handleAddParameter
    rw [hl, Option.map_some']
    have harg : p ++ " --" ++ "chaos" ++ " " ++
        jsTemplateOpt (jsOrStr chaosInfo.default (codeFallback chaosInfo)) =
        p ++ " --chaos 0" := by
      rw [String.append_assoc, String.append_assoc, String.append_assoc]
      rfl
    rw [harg]
  rw [hadd, Option.getD_some]
  have hTL : (p ++ " --chaos 0").toList = p.toList ++ (" --chaos 0").toList := rfl
  by_cases hAe : (p.toList.dropWhile jsIsWs).isEmpty = true
  · -- the prompt is all whitespace: everything is concrete
    have hdw : (p.toList ++ (" --chaos 0").toList).dropWhile jsIsWs =
        ("--chaos 0").toList := by
      rw [List.dropWhile_append, if_pos hAe]
      decide
    have hT : jsTrimStr (p ++ " --chaos 0") = String.mk (("--chaos 0").toList) := by
      unfold jsTrimStr
      rw [show (p ++ " --chaos 0").toList = p.toList ++ (" --chaos 0").toList from rfl]
      rw [jsTrimList_eq_rstrip, hdw]
      rfl
    rw [hT]
    decide
  · -- the trimmed prompt is non-empty
    obtain ⟨a, A', hAc⟩ : ∃ a A', p.toList.dropWhile jsIsWs = a :: A' := by
      cases hAx : p.toList.dropWhile jsIsWs with
      | nil => rw [hAx] at hAe; simp at hAe
      | cons a A' => exact ⟨a, A', rfl⟩
    have hhead : jsIsWs a = false := by
      have hw := List.head?_dropWhile_not jsIsWs p.toList
      rw [hAc] at hw
      simpa using hw
    have hddA : ddFree (p.toList.dropWhile jsIsWs) = true :=
      ddFree_dropWhile jsIsWs p.toList hdd
    have hdw : (p.toList ++ (" --chaos 0").toList).dropWhile jsIsWs =
        (p.toList.dropWhile jsIsWs) ++ (" --chaos 0").toList := by
      rw [List.dropWhile_append, if_neg (by simp_all)]
    have hT : jsTrimStr (p ++ " --chaos 0") =
        String.mk ((p.toList.dropWhile jsIsWs) ++ (" --chaos 0").toList) := by
      unfold jsTrimStr
      rw [show (p ++ " --chaos 0").toList = p.toList ++ (" --chaos 0").toList from rfl]
      rw [jsTrimList_eq_rstrip, hdw, rstripWs_append _ _ (by decide)]
      rw [show (((" --chaos 0").toList.reverse.dropWhile jsIsWs)).reverse =
        (" --chaos 0").toList from by decide]
    rw [hT]
    have hsplit : (p.toList.dropWhile jsIsWs) ++ (" --chaos 0").toList =
        ((p.toList.dropWhile jsIsWs) ++ [' ']) ++ ("--chaos 0").toList := by
      rw [List.append_assoc]
      rfl
    have hddB : ddFree (((p.toList.dropWhile jsIsWs) ++ [' ']) ++
        (("--chaos 0").toList).take 1) = true := by
      rw [List.append_assoc]
      exact ddFree_append_cons _ ' ' _ hddA (by decide) (by decide)
    have hupd : updateParameter
        (String.mk ((p.toList.dropWhile jsIsWs) ++ (" --chaos 0").toList))
        ("chaos") ("50") =
        String.mk (((p.toList.dropWhile jsIsWs) ++ [' ']) ++ ("--chaos 50").toList) := by
      unfold updateParameter
      rw [show (String.mk ((p.toList.dropWhile jsIsWs) ++ (" --chaos 0").toList)).toList =
        ((p.toList.dropWhile jsIsWs) ++ [' ']) ++ ("--chaos 0").toList from hsplit]
      rw [show ("--" ++ "chaos" ++ " " ++
        jsTemplateOpt (updateEffectiveValue ("chaos") ("50")) ++ " ").toList =
        ("--chaos 50 ").toList from by decide]
      rw [replaceFirstUpd_append _ _ _ _ hddB]
      rw [show replaceFirstUpd (("chaos").toList) (("--chaos 50 ").toList)
        (("--chaos 0").toList) = ("--chaos 50 ").toList from by decide]
      unfold jsTrimStr
      rw [show (String.mk (((p.toList.dropWhile jsIsWs) ++ [' ']) ++
        ("--chaos 50 ").toList)).toList =
        ((p.toList.dropWhile jsIsWs) ++ [' ']) ++ ("--chaos 50 ").toList from rfl]
      rw [jsTrimList_eq_rstrip]
      have hBh : ((((p.toList.dropWhile jsIsWs) ++ [' ']) ++
          ("--chaos 50 ").toList)).dropWhile jsIsWs =
          ((p.toList.dropWhile jsIsWs) ++ [' ']) ++ ("--chaos 50 ").toList := by
        rw [hAc]
        rw [show ((a :: A' ++ [' ']) ++ ("--chaos 50 ").toList) =
          a :: ((A' ++ [' ']) ++ ("--chaos 50 ").toList) from rfl]
        rw [List.dropWhile_cons_of_neg (by simp [hhead])]
      rw [hBh, rstripWs_append _ _ (by decide)]
      rw [show ((("--chaos 50 ").toList.reverse.dropWhile jsIsWs)).reverse =
        ("--chaos 50").toList from by decide]
    rw [hupd]
    have hdd50 : ddFree (((p.toList.dropWhile jsIsWs) ++ [' ']) ++
        (("--chaos 50").toList).take 1) = true := by
      rw [show ((("--chaos 50").toList).take 1) = ((("--chaos 0").toList).take 1)
        from by decide]
      exact hddB
    have hscan : paramScan (((p.toList.dropWhile jsIsWs) ++ [' ']) ++
        ("--chaos 50").toList) = [("chaos", "50")] := by
      rw [paramScan_append _ _ hdd50]
      decide
    have hfin : (analyzePrompt (String.mk (((p.toList.dropWhile jsIsWs) ++ [' ']) ++
        ("--chaos 50").toList))).parameters =
        (paramScan (((p.toList.dropWhile jsIsWs) ++ [' ']) ++ ("--chaos 50").toList)).map
          (fun nv => { name := nv.1, value := nv.2, enabled := true }) := rfl
    rw [hfin, hscan]
    rfl

/-- Witness for C7 at a concrete input. -/
theorem claim7_add_update_chaos_witness :
    (analyzePrompt (updateParameter ((handleAddParameter ("a cat") ("chaos")).getD "")
      ("chaos") ("50"))).parameters =
      [{ name := "chaos", value := "50", enabled := true }] :=
  claim7_add_update_chaos ("a cat") (by decide)

end MJ
